import Mathlib

/-!
Verification development for the proxy-twister repository.

Shallow embedding of the routing/forwarding core:
- `Utils`   models src/utils/mod.rs (wildcard pattern matching),
- `Config`, `Switch`, `Rule`, `Profile` model src/config/mod.rs,
- `Http`    models src/protocols/http.rs (request-head parsing, CONNECT target),
- `Socks`   models src/protocols/socks.rs (the SOCKS5 upstream client),
- `Server`  models src/server.rs (profile selection, target extraction, the
  direct CONNECT branch and the cancellation behaviour of handle_client),
- `Watcher` models src/config/watcher.rs (one reload cycle).

Streams are modelled as the finite list of bytes (or characters) a peer will
deliver before EOF; machine integers are `Nat` with explicit `% 256` where the
source casts (`as u8`); fallible code returns `Except`/`Option`.  The file
holds all definitions first and all theorems afterwards.
-/

set_option autoImplicit false

namespace ProxyTwister

namespace Utils

/-- One element of the compiled regular expression produced by
`wildcard_to_regex` (src/utils/mod.rs:6-16).  `regex::escape` makes every
character of the pattern a literal; the subsequent
`.replace("\\*", ".*")` turns exactly the escaped `*` characters into `.*`.
So the compiled regex is a sequence of literals and match-anything stars. -/
inductive RElem where
  | lit (c : Char)
  | anyStar
  deriving DecidableEq

/-- The suffixes of `s` reachable by deleting a newline-free prefix: the
candidate remainders after `.*` consumes characters.  The regex crate's
default `.` matches any character except `\n`, so `.*` may only consume a
newline-free prefix. -/
def nlTails : List Char → List (List Char)
  | [] => [[]]
  | c :: cs => (c :: cs) :: (if c = '\n' then [] else nlTails cs)

/-- Anchored matching of a compiled element sequence against a character list.
This is the standard denotation of the anchored regex `^e₁e₂…eₙ$`: a literal
consumes exactly its character, and `.*` (`anyStar`) consumes any newline-free
prefix of the input — the regex crate's default `.` excludes `\n` — after
which the rest of the pattern must match the remaining suffix. -/
def reMatch : List RElem → List Char → Bool
  | [], s => s.isEmpty
  | RElem.lit c :: ps, s =>
      match s with
      | [] => false
      | x :: xs => c == x && reMatch ps xs
  | RElem.anyStar :: ps, s => (nlTails s).any fun t => reMatch ps t

/-- Compilation of a pattern that does not start with `*.`
(src/utils/mod.rs:13): every character is escaped to a literal and every `*`
becomes `.*`. -/
def compileGlob (pattern : List Char) : List RElem :=
  pattern.map fun c => if c = '*' then RElem.anyStar else RElem.lit c

/-- Model of `matches_pattern` composed with `wildcard_to_regex`
(src/utils/mod.rs:6-22).  The test `pattern.data.take 2 = ['*', '.']` is the
success condition of `strip_prefix("*.")`, and `pattern.data.drop 2` the
stripped remainder.  For a pattern `*.domain` the source builds the regex
`^(.*\.)?domain$` with `domain` escaped (all characters literal); the optional
group is rendered as the alternation of its two readings.  Any other pattern is
escaped, `*` replaced by `.*`, and anchored. -/
def matches_pattern (host pattern : String) : Bool :=
  if pattern.data.take 2 = ['*', '.'] then
    reMatch ((pattern.data.drop 2).map RElem.lit) host.data
      || reMatch
          (RElem.anyStar :: RElem.lit '.' :: (pattern.data.drop 2).map RElem.lit)
          host.data
  else reMatch (compileGlob pattern.data) host.data

/-- Spec-side glob semantics, written from the specification's words and
corrected for the regex crate's newline semantics: the only wildcard is `*`,
each `*` matches zero or more characters other than `\n` (its translation `.*`
uses the default `.`, which excludes newline), every other character matches
itself, and matching is anchored at both ends.  Used to state the refinement
half of C2 against `matches_pattern`. -/
inductive GlobSpec : List Char → List Char → Prop where
  | nil : GlobSpec [] []
  | lit {c : Char} {ps s : List Char} :
      c ≠ '*' → GlobSpec ps s → GlobSpec (c :: ps) (c :: s)
  | star {ps s : List Char} (w : List Char) :
      '\n' ∉ w → GlobSpec ps s → GlobSpec ('*' :: ps) (w ++ s)

end Utils

/-- A routing rule (src/config/mod.rs:25-29). -/
structure Rule where
  pattern : String
  profile : String
  deriving DecidableEq

/-- The switch section of a policy (src/config/mod.rs:11-15). -/
structure Switch where
  default : String
  rules : List Rule
  deriving DecidableEq

/-- A profile definition (src/config/mod.rs:17-23). -/
inductive Profile where
  | direct
  | socks5 (host : String) (port : Nat)
  | http (host : String) (port : Nat)
  deriving DecidableEq

/-- The policy (src/config/mod.rs:4-9).  The source keeps `profiles` in a
`HashMap`; it is modelled as an association list looked up by key. -/
structure Config where
  switch : Switch
  profiles : List (String × Profile)
  deriving DecidableEq

namespace Http

/-- ASCII whitespace, the restriction of Rust's `char::is_whitespace` (used by
`split_whitespace` and `trim`) to the byte range; Unicode whitespace beyond
ASCII is not modelled, all inputs considered are ASCII. -/
def isWS (c : Char) : Bool :=
  c = ' ' || c = '\t' || c = '\n' || c = '\x0b' || c = '\x0c' || c = '\r'

/-- Remove trailing whitespace (the right half of Rust's `str::trim`). -/
def trimRight (s : List Char) : List Char :=
  (s.reverse.dropWhile isWS).reverse

/-- Model of Rust's `str::trim`. -/
def trim (s : List Char) : List Char :=
  trimRight (s.dropWhile isWS)

/-- Accumulator worker for `splitWS`: `acc` holds the reversed current token. -/
def splitWSGo : List Char → List Char → List (List Char)
  | acc, [] => if acc.isEmpty then [] else [acc.reverse]
  | acc, c :: cs =>
      if isWS c then
        if acc.isEmpty then splitWSGo [] cs else acc.reverse :: splitWSGo [] cs
      else splitWSGo (c :: acc) cs

/-- Model of Rust's `str::split_whitespace` (no empty tokens). -/
def splitWS (s : List Char) : List (List Char) :=
  splitWSGo [] s

/-- Cut the input into the lines `read_line` would deliver: each line retains
its terminating newline, except a final unterminated line at EOF. -/
def splitNl : List Char → List (List Char)
  | [] => []
  | c :: cs =>
      if c = '\n' then ['\n'] :: splitNl cs
      else
        match splitNl cs with
        | [] => [[c]]
        | l :: ls => (c :: l) :: ls

/-- Model of Rust's `str::split_once(':')`: split at the first colon. -/
def splitOnceColon : List Char → Option (List Char × List Char)
  | [] => none
  | c :: cs =>
      if c = ':' then some ([], cs)
      else
        match splitOnceColon cs with
        | none => none
        | some p => some (c :: p.1, p.2)

/-- Model of Rust's `str::split(sep)`: always at least one (possibly empty)
part. -/
def splitAll (sep : Char) : List Char → List (List Char)
  | [] => [[]]
  | c :: cs =>
      if c = sep then [] :: splitAll sep cs
      else
        match splitAll sep cs with
        | [] => [[c]]
        | p :: ps => (c :: p) :: ps

/-- Model of Rust's `str::strip_prefix`. -/
def stripPre (pre s : List Char) : Option (List Char) :=
  if pre.isPrefixOf s then some (s.drop pre.length) else none

/-- Digit-string value. -/
def digitsVal (s : List Char) : Nat :=
  s.foldl (fun acc c => acc * 10 + (c.toNat - 48)) 0

/-- Shared core of Rust's unsigned-integer `FromStr`: an optional leading `+`,
then at least one ASCII digit. -/
def parseDigits? (s : List Char) : Option Nat :=
  let digits :=
    match s with
    | '+' :: rest => rest
    | other => other
  if digits ≠ [] ∧ digits.all Char.isDigit then some (digitsVal digits) else none

/-- `usize::from_str` (64-bit): overflow is a parse error. -/
def parseUsize? (s : List Char) : Option Nat :=
  match parseDigits? s with
  | some n => if n < 2 ^ 64 then some n else none
  | none => none

/-- `u16::from_str`: overflow is a parse error. -/
def parseU16? (s : List Char) : Option Nat :=
  match parseDigits? s with
  | some n => if n < 2 ^ 16 then some n else none
  | none => none

/-- `HashMap::insert` on the association-list model: replace the entry with an
equal key in place, otherwise append. -/
def insertHeader :
    List (List Char × List Char) → List Char → List Char →
      List (List Char × List Char)
  | [], k, v => [(k, v)]
  | p :: rest, k, v =>
      if p.1 = k then (k, v) :: rest
      else p :: insertHeader rest k v

/-- `HashMap::get` on the association-list model. -/
def lookupHeader : List (List Char × List Char) → List Char → Option (List Char)
  | [], _ => none
  | p :: rest, k => if p.1 = k then some p.2 else lookupHeader rest k

/-- Model of `HttpRequest` (src/protocols/http.rs:19-25).  Strings are lists of
characters (one per byte; inputs considered are ASCII); `headers` models the
`HashMap<String, String>` as an association list with the source's insertion
and lookup semantics. -/
structure HttpRequest where
  method : List Char
  target : List Char
  headers : List (List Char × List Char)
  body : List Char
  deriving DecidableEq

def contentLengthKey : List Char := "content-length".data

inductive ParseErr where
  | invalid
  | ioError
  deriving DecidableEq

/-- The header loop of `parse_request` (src/protocols/http.rs:57-87), over the
list of lines `read_line` would deliver: stop at the first line that is empty
after trimming (this includes the EOF case, where `read_line` returns an empty
line); a line without a colon is skipped; otherwise the name is trimmed and
lowercased, the value trimmed, the pending `content_length` is replaced
whenever the name is `content-length` (an unparsable value counts as 0), and
the pair is inserted into the map.  Returns the headers, the final
`content_length` and the unread lines. -/
def readHeadersLines :
    List (List Char) → List (List Char × List Char) → Nat →
      List (List Char × List Char) × Nat × List (List Char)
  | [], acc, cl => (acc, cl, [])
  | line :: rest, acc, cl =>
      if (trim line).isEmpty then (acc, cl, rest)
      else
        match splitOnceColon line with
        | none => readHeadersLines rest acc cl
        | some p =>
            let key := (trim p.1).map Char.toLower
            let value := trim p.2
            let cl' := if key = contentLengthKey then (parseUsize? value).getD 0 else cl
            readHeadersLines rest (insertHeader acc key value) cl'

/-- Model of `parse_request` (src/protocols/http.rs:27-111): split the input
into `read_line` lines; the first line must have exactly 3 whitespace-separated
tokens (`InvalidData` otherwise); run the header loop; when the resulting
`content_length` is positive, `read_exact` that many body bytes from the
remaining input (hitting EOF first is an I/O error).  The 30-second timeout
around each read cannot fire in a pure model that is handed the whole input.
Returns the parsed request together with the unconsumed remainder of the
input. -/
def parse_request (input : List Char) : Except ParseErr (HttpRequest × List Char) :=
  match splitNl input with
  | [] => .error .invalid
  | line1 :: restLines =>
      let parts := splitWS line1
      if parts.length = 3 then
        let hr := readHeadersLines restLines [] 0
        let rest2 := hr.2.2.flatten
        if 0 < hr.2.1 then
          if hr.2.1 ≤ rest2.length then
            .ok (⟨parts.getD 0 [], parts.getD 1 [], hr.1, rest2.take hr.2.1⟩,
                  rest2.drop hr.2.1)
          else .error .ioError
        else .ok (⟨parts.getD 0 [], parts.getD 1 [], hr.1, []⟩, rest2)
      else .error .invalid

def crlf : List Char := ['\r', '\n']

def httpVersion : List Char := "HTTP/1.1".data

/-- One serialized header line `name: value` with its CRLF terminator. -/
def headerLine (p : List Char × List Char) : List Char :=
  p.1 ++ ':' :: ' ' :: (p.2 ++ crlf)

/-- Re-serialization of a request head: the request line, each header as
`name: value`, a blank line, then the body — exactly how the source re-emits a
parsed request (src/server.rs:310-318). -/
def serialize_request (r : HttpRequest) : List Char :=
  r.method ++ ' ' :: (r.target ++ ' ' :: (httpVersion
    ++ (crlf ++ (r.headers.flatMap headerLine ++ (crlf ++ r.body)))))

/-- The final `content_length` computed by the header loop when it consumes
exactly the given header pairs, starting from `cl`. -/
def declaredCL : Nat → List (List Char × List Char) → Nat
  | cl, [] => cl
  | cl, p :: rest =>
      declaredCL (if p.1 = contentLengthKey then (parseUsize? p.2).getD 0 else cl) rest

/-- A token (method or request target) that survives the request-line round
trip: nonempty, without ASCII whitespace. -/
def TokenOk (s : List Char) : Prop :=
  s ≠ [] ∧ ∀ c ∈ s, isWS c = false

/-- A header name in the parser's normal form: nonempty, without whitespace or
colon, already lowercase. -/
def HeaderNameOk (k : List Char) : Prop :=
  k ≠ [] ∧ ∀ c ∈ k, isWS c = false ∧ c ≠ ':' ∧ Char.toLower c = c

/-- A header value in the parser's normal form: no leading or trailing
whitespace and no newline. -/
def HeaderValueOk (v : List Char) : Prop :=
  v.dropWhile isWS = v ∧ trimRight v = v ∧ '\n' ∉ v

/-- A request head in canonical serialized form: request line with single
spaces and version HTTP/1.1, headers in normal form with pairwise distinct
names, and a declared content length that agrees with the body. -/
def CanonicalHead (r : HttpRequest) : Prop :=
  TokenOk r.method ∧ TokenOk r.target
    ∧ (∀ p ∈ r.headers, HeaderNameOk p.1 ∧ HeaderValueOk p.2)
    ∧ (r.headers.map Prod.fst).Nodup
    ∧ declaredCL 0 r.headers = r.body.length

/-- The 500 response line (src/protocols/http.rs:17). -/
def HTTP_SERVER_ERROR : String := "HTTP/1.1 500 Internal Server Error\r\n\r\n"

/-- Errors of CONNECT handling and target extraction. -/
inductive ExtractErr where
  | methodNotAllowed
  | badTarget
  | badPort
  | noHost
  deriving DecidableEq

def connectStr : List Char := "CONNECT".data

/-- Model of `handle_connect` (src/protocols/http.rs:113-144): a non-CONNECT
method gets a 405 and an error; the request target must split on `:` into
exactly two parts (else 400); the second part must parse as u16. -/
def handle_connect (request : HttpRequest) : Except ExtractErr (List Char × Nat) :=
  if request.method ≠ connectStr then .error .methodNotAllowed
  else
    match splitAll ':' request.target with
    | [h, p] =>
        match parseU16? p with
        | some port => .ok (h, port)
        | none => .error .badPort
    | _ => .error .badTarget

end Http

namespace Server

/-- The loop body of `select_profile` (src/server.rs:10-20): `selected` starts
as the switch default and the loop breaks at the first rule whose pattern
matches the host, returning that rule's profile name. -/
def select_profile_loop (target_host selected : String) : List Rule → String
  | [] => selected
  | rule :: rest =>
      if Utils.matches_pattern target_host rule.pattern then rule.profile
      else select_profile_loop target_host selected rest

/-- Model of `select_profile` (src/server.rs:10-20). -/
def select_profile (config : Config) (target_host : String) : String :=
  select_profile_loop target_host config.switch.default config.switch.rules

def hostKey : List Char := "host".data

def httpSchemePre : List Char := "http://".data

/-- The host-string derivation of `extract_host_and_port`
(src/server.rs:35-56): prefer the `host` header; otherwise, when the request
target starts with `http://`, the authority is everything up to the first `/`
after the scheme; otherwise there is no host. -/
def derivedHost (request : Http.HttpRequest) : Option (List Char) :=
  match Http.lookupHeader request.headers hostKey with
  | some h => some h
  | none =>
      match Http.stripPre httpSchemePre request.target with
      | some uri => some (uri.takeWhile fun c => c != '/')
      | none => none

/-- Model of `extract_host_and_port` (src/server.rs:22-73).  For CONNECT it
defers to `handle_connect`.  Otherwise the derived host string is split on
`:`; the part before the first colon is the host; when a second part exists it
is parsed as u16 with fallback 80 (`unwrap_or(80)`), and with no second part
the port is 80 — there is no https-dependent default. -/
def extract_host_and_port (request : Http.HttpRequest) :
    Except Http.ExtractErr (List Char × Nat) :=
  if request.method = Http.connectStr then Http.handle_connect request
  else
    match derivedHost request with
    | none => .error .noHost
    | some host =>
        let parts := Http.splitAll ':' host
        let port :=
          if 1 < parts.length then (Http.parseU16? (parts.getD 1 [])).getD 80 else 80
        .ok (parts.getD 0 [], port)

/-- Byte image of an ASCII string. -/
def strBytes (s : String) : List Nat := s.data.map Char.toNat

def http500Bytes : List Nat := strBytes Http.HTTP_SERVER_ERROR

/-- The reply line the specification expects on a successful CONNECT. -/
def http200Bytes : List Nat :=
  strBytes ("HTTP/1.1 200 Connection Established\r\n\r\n")

/-- Model of the CONNECT branch of `handle_direct_connection`
(src/server.rs:81-109).  `connectOk` abstracts the success of
`TcpStream::connect` to the target; `clientBytes`/`targetBytes` are the byte
lists each peer delivers before EOF.  On success the code immediately runs the
two copy loops (`tokio::try_join!` of `io::copy` client→target and
target→client, lines 92-97) with no preliminary reply to the client; on
failure it writes `HTTP_SERVER_ERROR` (line 107).  Result: (bytes written to
the client, bytes written to the target). -/
def handle_direct_connect (connectOk : Bool) (clientBytes targetBytes : List Nat) :
    List Nat × List Nat :=
  if connectOk then (targetBytes, clientBytes)
  else (http500Bytes, [])

/-- The epoch token as one connection's handler can observe it: its value at
the entry check, and whether the watcher cancels it while the byte-pump is
running. -/
structure TokenHistory where
  cancelledAtEntry : Bool
  cancelledDuringPump : Bool
  deriving DecidableEq

inductive HandlerOutcome where
  | earlyReturn
  | pumped (toClient toUpstream : List Nat)
  deriving DecidableEq

/-- Cancellation behaviour of `handle_client` (src/server.rs:373-423): the
epoch token is consulted exactly once, by `is_cancelled()` before the request
is read (line 379); the byte-pump (`tokio::try_join!` of two `io::copy` calls,
lines 94-97, 247-250, 305-308, 322-325, 352-355) is given no access to the
token and copies until EOF.  `cancelledDuringPump` is deliberately not read by
this definition because no program point after line 379 reads the token.
Parsing, extraction and dispatch are abstracted as succeeding; the outcome is
what the pump forwards. -/
def handle_client_pump (tok : TokenHistory) (clientBytes upstreamBytes : List Nat) :
    HandlerOutcome :=
  if tok.cancelledAtEntry then .earlyReturn
  else .pumped upstreamBytes clientBytes

end Server

namespace Socks

def SOCKS_VERSION : Nat := 5

def NO_AUTHENTICATION : Nat := 0

def CONNECT_COMMAND : Nat := 1

def IPV4_TYPE : Nat := 1

def DOMAIN_TYPE : Nat := 3

def IPV6_TYPE : Nat := 4

def SUCCESS_REPLY : Nat := 0

/-- Model of `Socks5Request` (src/protocols/socks.rs:16-19): the target host is
kept as its byte sequence, since the source only uses `target.len()` (the byte
length) and `target.as_bytes()`. -/
structure Socks5Request where
  target : List Nat
  port : Nat
  deriving DecidableEq

/-- The answer the upstream proxy gives to one `read_exact`: either the bytes
of that read (the oracle supplies exactly one answer per read), or the
information that the read's time bound would be exceeded. -/
inductive ReadReply where
  | bs (bytes : List Nat)
  | timedOut
  deriving DecidableEq

inductive SocksResult where
  | ok
  | ioError
  | authRejected
  | connectRejected (code : Nat)
  | protocolError
  | timeout
  | hangs
  deriving DecidableEq

/-- What one run of the SOCKS5 client does: the bytes written to the upstream,
the reads performed (requested byte count, timeout bound in seconds if any),
and the outcome. -/
structure SocksTrace where
  written : List Nat
  reads : List (Nat × Option Nat)
  result : SocksResult
  deriving DecidableEq

/-- One bound-address read of `n` bytes under the 10 s timeout
(src/protocols/socks.rs:94-127 and 132-146). -/
def socksAddrRead (w : List Nat) (reads : List (Nat × Option Nat)) (n : Nat) :
    List ReadReply → SocksTrace
  | [] => ⟨w, reads ++ [(n, some 10)], .ioError⟩
  | .timedOut :: _ => ⟨w, reads ++ [(n, some 10)], .timeout⟩
  | .bs bytes :: _ =>
      if bytes.length = n then ⟨w, reads ++ [(n, some 10)], .ok⟩
      else ⟨w, reads ++ [(n, some 10)], .ioError⟩

/-- Reply processing (src/protocols/socks.rs:56-173): the 4-byte reply head is
read under the 10 s timeout; REP must be 0 (else the connection is rejected
with that code); then the bound address is consumed per ATYP — IPv4 4+2 bytes,
IPv6 16+2 bytes, DOMAIN a 1-byte length then length+2 bytes, every read under
the 10 s timeout; an unknown ATYP is a protocol error. -/
def socksReply (w : List Nat) (reads : List (Nat × Option Nat)) :
    List ReadReply → SocksTrace
  | [] => ⟨w, reads ++ [(4, some 10)], .ioError⟩
  | .timedOut :: _ => ⟨w, reads ++ [(4, some 10)], .timeout⟩
  | .bs rh :: rest =>
      if rh.length = 4 then
        if rh.getD 1 0 ≠ SUCCESS_REPLY then
          ⟨w, reads ++ [(4, some 10)], .connectRejected (rh.getD 1 0)⟩
        else if rh.getD 3 0 = IPV4_TYPE then
          socksAddrRead w (reads ++ [(4, some 10)]) 6 rest
        else if rh.getD 3 0 = IPV6_TYPE then
          socksAddrRead w (reads ++ [(4, some 10)]) 18 rest
        else if rh.getD 3 0 = DOMAIN_TYPE then
          match rest with
          | [] => ⟨w, reads ++ [(4, some 10), (1, some 10)], .ioError⟩
          | .timedOut :: _ => ⟨w, reads ++ [(4, some 10), (1, some 10)], .timeout⟩
          | .bs lb :: rest2 =>
              if lb.length = 1 then
                socksAddrRead w (reads ++ [(4, some 10), (1, some 10)])
                  (lb.getD 0 0 + 2) rest2
              else ⟨w, reads ++ [(4, some 10), (1, some 10)], .ioError⟩
        else ⟨w, reads ++ [(4, some 10)], .protocolError⟩
      else ⟨w, reads ++ [(4, some 10)], .ioError⟩

/-- The greeting bytes `[5, 1, 0]`, written in one `write_all`
(src/protocols/socks.rs:29-31). -/
def greeting : List Nat := [SOCKS_VERSION, 1, NO_AUTHENTICATION]

/-- The bytes of the `Request` step (src/protocols/socks.rs:45-53), written by
seven consecutive `write_all` calls: version, command, reserved 0, DOMAIN
address type, the length byte `target.len() as u8` (the byte length modulo
256), the host bytes, and the big-endian u16 port. -/
def requestBytes (request : Socks5Request) : List Nat :=
  [SOCKS_VERSION] ++ [CONNECT_COMMAND] ++ [0] ++ [DOMAIN_TYPE]
    ++ [request.target.length % 256] ++ request.target
    ++ [request.port / 256 % 256, request.port % 256]

/-- Model of `forward_to_proxy` (src/protocols/socks.rs:21-174).  Dialing the
upstream is assumed to succeed (a dial failure happens before any byte is
exchanged).  The greeting is written; the 2-byte greeting reply is read with
NO timeout wrapper (line 34), so an oracle answer of `timedOut` there means
the client hangs rather than fails; a reply other than `[5, 0]` is an
authentication rejection (lines 37-43); then the request bytes are written and
the reply is processed, each further read bounded by 10 s. -/
def forward_to_proxy (request : Socks5Request) : List ReadReply → SocksTrace
  | [] => ⟨greeting, [(2, none)], .ioError⟩
  | .timedOut :: _ => ⟨greeting, [(2, none)], .hangs⟩
  | .bs resp :: rest =>
      if resp.length = 2 then
        if resp.getD 0 0 ≠ SOCKS_VERSION ∨ resp.getD 1 0 ≠ NO_AUTHENTICATION then
          ⟨greeting, [(2, none)], .authRejected⟩
        else socksReply (greeting ++ requestBytes request) [(2, none)] rest
      else ⟨greeting, [(2, none)], .ioError⟩

end Socks

namespace Watcher

/-- The observable state the watcher manipulates: the policy cell's content,
the epoch number of the currently installed connections token, and the list of
epochs whose token has been cancelled. -/
structure WatcherState where
  config : Config
  tokenEpoch : Nat
  cancelledEpochs : List Nat
  deriving DecidableEq

/-- Model of one reload iteration of `spawn_config_watcher`
(src/config/watcher.rs:49-113), entered after the debounce.  `parsed` is the
result of `Config::load`; `lockOk` is whether `connections_token.lock()`
succeeded (it fails only on poisoning; on failure the code logs and leaves the
token untouched); `firstWriteOk` and `secondWriteOk` are whether the 3 s and
the retried 500 ms bounded waits for the policy write lock succeeded.  On a
parse error the iteration continues immediately (lines 55-58): no token is
cancelled and the policy cell is untouched.  On success the current token is
cancelled and replaced first (lines 61-76), then the policy is written under
the first lock acquisition that succeeds, or left unchanged when both time
out (lines 82-113). -/
def reload_cycle (st : WatcherState) (parsed : Except String Config)
    (lockOk firstWriteOk secondWriteOk : Bool) : WatcherState :=
  match parsed with
  | .error _ => st
  | .ok newConfig =>
      let st1 :=
        if lockOk then
          { st with
            cancelledEpochs := st.tokenEpoch :: st.cancelledEpochs
            tokenEpoch := st.tokenEpoch + 1 }
        else st
      if firstWriteOk then { st1 with config := newConfig }
      else if secondWriteOk then { st1 with config := newConfig }
      else st1

end Watcher

/-! Concrete inputs used by witnesses and counterexamples. -/

/-- The pattern-precedence policy of spec scenario 2. -/
def c1Config : Config :=
  { switch :=
      { default := "direct"
        rules := [{ pattern := "*.example.com", profile := "A" },
                  { pattern := "*", profile := "B" }] }
    profiles := [] }

def c1Host : String := "a.example.com"

def c1Rule : Rule := { pattern := "*.example.com", profile := "A" }

def c2Pattern : String := "*.ab"

def c2Host : String := "x.ab"

def c2Domain : List Char := ['a', 'b']

def c2NlPattern : String := "*.example.com"

/-- A strict subdomain of example.com whose subdomain label contains `\n`. -/
def c2NlHost : String := "a\nb.example.com"

def c2NlPre : List Char := ['a', '\n', 'b']

def c2NlDomain : List Char := "example.com".data

def c2StarPattern : String := "*"

def c2NlStarHost : String := "a\nb"

/-- A GET for an https URL carrying a Host header with no explicit port. -/
def c4Request : Http.HttpRequest :=
  { method := "GET".data
    target := "https://example.com/".data
    headers := [("host".data, "example.com".data)]
    body := [] }

/-- A head whose only header uses no space after the colon: `host:x`. -/
def c7Input : List Char := "GET / HTTP/1.1\r\nhost:x\r\n\r\n".data

def c7Request : Http.HttpRequest :=
  { method := "GET".data
    target := "/".data
    headers := [("host".data, "x".data)]
    body := [] }

/-- A canonical head used as the C7 witness. -/
def c7Canonical : Http.HttpRequest :=
  { method := "POST".data
    target := "/p".data
    headers := [("host".data, "e.com".data), ("content-length".data, "3".data)]
    body := "abc".data }

/-- A 12-byte target host (spec scenario 3) and port 443. -/
def c5Request : Socks.Socks5Request :=
  { target := ("intranet.com".data.map Char.toNat), port := 443 }

/-- A 260-byte target host, longer than a u8 length field can express. -/
def c10Request : Socks.Socks5Request :=
  { target := List.replicate 260 97, port := 80 }

def c8State : Watcher.WatcherState :=
  { config := c1Config, tokenEpoch := 3, cancelledEpochs := [2, 1, 0] }

/-! ## Theorems -/

namespace Utils

theorem reMatch_nil (s : List Char) : reMatch [] s = true ↔ s = [] := by
  cases s <;> simp [reMatch]

theorem reMatch_lit_cons (c : Char) (ps : List RElem) (s : List Char) :
    reMatch (RElem.lit c :: ps) s = true ↔
      ∃ t : List Char, s = c :: t ∧ reMatch ps t = true := by
  cases s with
  | nil => simp [reMatch]
  | cons x xs =>
      simp only [reMatch, Bool.and_eq_true, beq_iff_eq, List.cons.injEq]
      constructor
      · rintro ⟨rfl, h⟩; exact ⟨xs, ⟨rfl, rfl⟩, h⟩
      · rintro ⟨t, ⟨rfl, rfl⟩, h⟩; exact ⟨rfl, h⟩

theorem mem_nlTails (t : List Char) :
    ∀ s : List Char, t ∈ nlTails s ↔ ∃ w : List Char, '\n' ∉ w ∧ s = w ++ t := by
  intro s
  induction s with
  | nil =>
      constructor
      · intro ht
        have ht' : t = [] := by simpa [nlTails] using ht
        exact ⟨[], by simp, by simp [ht']⟩
      · rintro ⟨w, hw, he⟩
        obtain ⟨rfl, rfl⟩ := List.append_eq_nil.mp he.symm
        simp [nlTails]
  | cons c cs ih =>
      constructor
      · intro ht
        rw [nlTails] at ht
        rcases List.mem_cons.mp ht with ht | ht
        · exact ⟨[], by simp, by simp [ht]⟩
        · by_cases hc : c = '\n'
          · rw [if_pos hc] at ht
            exact absurd ht (List.not_mem_nil t)
          · rw [if_neg hc] at ht
            obtain ⟨w, hw, rfl⟩ := ih.mp ht
            refine ⟨c :: w, ?_, rfl⟩
            intro hm
            rcases List.mem_cons.mp hm with hm | hm
            · exact hc hm.symm
            · exact hw hm
      · rintro ⟨w, hw, he⟩
        cases w with
        | nil =>
            rw [List.nil_append] at he
            rw [← he]
            exact List.mem_cons_self _ _
        | cons c' w' =>
            rw [List.cons_append] at he
            injection he with h1 h2
            subst h1
            have hc : ¬c = '\n' := fun hcc =>
              hw (by rw [← hcc]; exact List.mem_cons_self _ _)
            have hw' : '\n' ∉ w' := fun hm => hw (List.mem_cons_of_mem _ hm)
            rw [nlTails, if_neg hc]
            exact List.mem_cons_of_mem _ (ih.mpr ⟨w', hw', h2⟩)

theorem reMatch_anyStar (ps : List RElem) (s : List Char) :
    reMatch (RElem.anyStar :: ps) s = true ↔
      ∃ w t : List Char, '\n' ∉ w ∧ s = w ++ t ∧ reMatch ps t = true := by
  simp only [reMatch, List.any_eq_true]
  constructor
  · rintro ⟨t, ht, h⟩
    obtain ⟨w, hw, rfl⟩ := (mem_nlTails t s).mp ht
    exact ⟨w, t, hw, rfl, h⟩
  · rintro ⟨w, t, hw, rfl, h⟩
    exact ⟨t, (mem_nlTails t _).mpr ⟨w, hw, rfl⟩, h⟩

theorem reMatch_lits (l : List Char) :
    ∀ s : List Char, reMatch (l.map RElem.lit) s = true ↔ s = l := by
  induction l with
  | nil => intro s; simpa using reMatch_nil s
  | cons c cs ih =>
      intro s
      rw [List.map_cons, reMatch_lit_cons]
      constructor
      · rintro ⟨t, rfl, h⟩; rw [(ih t).mp h]
      · rintro rfl; exact ⟨cs, rfl, (ih cs).mpr rfl⟩

theorem reMatch_star_dot_lits (l : List Char) (s : List Char) :
    reMatch (RElem.anyStar :: RElem.lit '.' :: l.map RElem.lit) s = true ↔
      ∃ w : List Char, '\n' ∉ w ∧ s = w ++ '.' :: l := by
  rw [reMatch_anyStar]
  constructor
  · rintro ⟨w, t, hw, rfl, h⟩
    obtain ⟨t', rfl, h'⟩ := (reMatch_lit_cons _ _ _).mp h
    rw [(reMatch_lits _ _).mp h']
    exact ⟨w, hw, rfl⟩
  · rintro ⟨w, hw, rfl⟩
    refine ⟨w, '.' :: l, hw, rfl, (reMatch_lit_cons _ _ _).mpr ?_⟩
    exact ⟨l, rfl, (reMatch_lits _ _).mpr rfl⟩

theorem globSpec_nil (s : List Char) : GlobSpec [] s ↔ s = [] := by
  constructor
  · intro h; cases h; rfl
  · rintro rfl; exact GlobSpec.nil

/-- Equivalence between the compiled-regex matcher on a general (non-`*.`)
pattern and the specification's glob semantics. -/
theorem reMatch_compileGlob (p : List Char) :
    ∀ s : List Char, reMatch (compileGlob p) s = true ↔ GlobSpec p s := by
  induction p with
  | nil =>
      intro s
      rw [show compileGlob [] = [] from rfl, reMatch_nil, globSpec_nil]
  | cons c p' ih =>
      intro s
      by_cases hc : c = '*'
      · subst hc
        rw [show compileGlob ('*' :: p') = RElem.anyStar :: compileGlob p' from by
              simp [compileGlob]]
        rw [reMatch_anyStar]
        constructor
        · rintro ⟨w, t, hw, rfl, h⟩
          exact GlobSpec.star w hw ((ih t).mp h)
        · intro h
          cases h with
          | lit hne _ => exact absurd rfl hne
          | star w hw h' => exact ⟨w, _, hw, rfl, (ih _).mpr h'⟩
      · rw [show compileGlob (c :: p') = RElem.lit c :: compileGlob p' from by
              simp [compileGlob, hc]]
        rw [reMatch_lit_cons]
        constructor
        · rintro ⟨t, rfl, h⟩
          exact GlobSpec.lit hc ((ih t).mp h)
        · intro h
          cases h with
          | lit hne h' => exact ⟨_, rfl, (ih _).mpr h'⟩
          | star w h' => exact absurd rfl hc

end Utils

namespace Server

theorem select_profile_loop_spec (host sel : String) (rules : List Rule) :
    ((∀ r : Rule,
        rules.find? (fun rule => Utils.matches_pattern host rule.pattern) = some r →
        select_profile_loop host sel rules = r.profile)
      ∧ (rules.find? (fun rule => Utils.matches_pattern host rule.pattern) = none →
        select_profile_loop host sel rules = sel))
    ∧ (select_profile_loop host sel rules = sel
        ∨ ∃ r : Rule, r ∈ rules ∧ select_profile_loop host sel rules = r.profile) := by
  induction rules with
  | nil => exact ⟨⟨fun r h => by simp at h, fun _ => rfl⟩, Or.inl rfl⟩
  | cons rule rest ih =>
      rcases hm : Utils.matches_pattern host rule.pattern with _ | _
      · have hfind : List.find? (fun rule => Utils.matches_pattern host rule.pattern)
            (rule :: rest)
            = List.find? (fun rule => Utils.matches_pattern host rule.pattern) rest := by
          simp [List.find?, hm]
        have hstep : select_profile_loop host sel (rule :: rest)
            = select_profile_loop host sel rest := by
          simp [select_profile_loop, hm]
        refine ⟨⟨fun r h => ?_, fun h => ?_⟩, ?_⟩
        · rw [hfind] at h
          rw [hstep]
          exact ih.1.1 r h
        · rw [hfind] at h
          rw [hstep]
          exact ih.1.2 h
        · rw [hstep]
          rcases ih.2 with h | ⟨r, hr, he⟩
          · exact Or.inl h
          · exact Or.inr ⟨r, List.mem_cons_of_mem _ hr, he⟩
      · have hfind : List.find? (fun rule => Utils.matches_pattern host rule.pattern)
            (rule :: rest) = some rule := by
          simp [List.find?, hm]
        have hstep : select_profile_loop host sel (rule :: rest) = rule.profile := by
          simp [select_profile_loop, hm]
        refine ⟨⟨fun r h => ?_, fun h => ?_⟩, ?_⟩
        · rw [hfind] at h
          cases h
          exact hstep
        · rw [hfind] at h
          cases h
        · exact Or.inr ⟨rule, List.mem_cons_self _ _, hstep⟩

end Server

/-- C1: profile selection returns the profile name of the first rule (in listed
order, as computed by `List.find?`) whose pattern matches the host, and the
switch default when no rule matches; consequently the result is always a rule's
profile name or the default. -/
theorem c1_select_profile (config : Config) (host : String) :
    ((∀ r : Rule,
        config.switch.rules.find?
            (fun rule => Utils.matches_pattern host rule.pattern) = some r →
        Server.select_profile config host = r.profile)
      ∧ (config.switch.rules.find?
            (fun rule => Utils.matches_pattern host rule.pattern) = none →
        Server.select_profile config host = config.switch.default))
    ∧ (Server.select_profile config host = config.switch.default
        ∨ ∃ r : Rule, r ∈ config.switch.rules
            ∧ Server.select_profile config host = r.profile) :=
  Server.select_profile_loop_spec host config.switch.default config.switch.rules

/-- Witness for C1: on the scenario-2 policy and host a.example.com the first
matching rule is the `*.example.com → A` rule and selection returns A. -/
theorem c1_select_profile_witness : Server.select_profile c1Config c1Host = "A" :=
  (c1_select_profile c1Config c1Host).1.1 c1Rule (by decide)

/-- C2 counterexample: under the claim, the single-star pattern `*` ("each `*`
matches zero or more characters", anchored) matches every host, and
`*.example.com` matches every strict subdomain `w ++ "." ++ "example.com"`;
but the regex crate's default `.` excludes `\n`, so the program rejects the
host `a\nb` under `*` and the strict subdomain `a\nb.example.com` under
`*.example.com`. -/
theorem c2_counterexample :
    c2NlHost.data = c2NlPre ++ '.' :: c2NlDomain
    ∧ Utils.matches_pattern c2NlHost c2NlPattern = false
    ∧ Utils.matches_pattern c2NlStarHost c2StarPattern = false :=
  ⟨by decide, by decide, by decide⟩

/-- C2 amended: a pattern of the form `*.domain` matches exactly the bare
suffix `domain` together with every host of the form `w ++ "." ++ domain`
where `w` contains no newline; every other pattern is matched with each `*`
standing for zero or more non-newline characters (the regex crate's default
`.` excludes `\n`) and all other characters literal, anchored at both ends
(the `GlobSpec` relation). -/
theorem c2_pattern_matching (pattern host : String) :
    (∀ domain : List Char, pattern.data = '*' :: '.' :: domain →
      (Utils.matches_pattern host pattern = true ↔
        host.data = domain
          ∨ ∃ w : List Char, '\n' ∉ w ∧ host.data = w ++ '.' :: domain))
    ∧ ((∀ domain : List Char, pattern.data ≠ '*' :: '.' :: domain) →
      (Utils.matches_pattern host pattern = true ↔
        Utils.GlobSpec pattern.data host.data)) := by
  constructor
  · intro domain hd
    have ht : pattern.data.take 2 = ['*', '.'] := by simp [hd]
    have hdrop : pattern.data.drop 2 = domain := by simp [hd]
    rw [Utils.matches_pattern, if_pos ht, hdrop, Bool.or_eq_true,
        Utils.reMatch_lits, Utils.reMatch_star_dot_lits]
  · intro hnot
    have ht : pattern.data.take 2 ≠ ['*', '.'] := by
      intro h
      refine hnot (pattern.data.drop 2) ?_
      conv_lhs => rw [← List.take_append_drop 2 pattern.data]
      rw [h]
      rfl
    rw [Utils.matches_pattern, if_neg ht]
    exact Utils.reMatch_compileGlob _ _

/-- Witness for C2 at pattern `*.ab` and host `x.ab`. -/
theorem c2_pattern_matching_witness :
    c2Host.data = c2Domain
      ∨ ∃ w : List Char, '\n' ∉ w ∧ c2Host.data = w ++ '.' :: c2Domain :=
  ((c2_pattern_matching c2Pattern c2Host).1 c2Domain (by decide)).mp (by decide)

namespace Socks

theorem socksAddrRead_written (w : List Nat) (reads : List (Nat × Option Nat))
    (n : Nat) (replies : List ReadReply) :
    (socksAddrRead w reads n replies).written = w := by
  cases replies with
  | nil => rfl
  | cons r rest =>
      cases r with
      | timedOut => rfl
      | bs bytes =>
          simp only [socksAddrRead]
          split <;> rfl

theorem socksAddrRead_reads (w : List Nat) (reads : List (Nat × Option Nat))
    (n : Nat) (replies : List ReadReply) :
    (socksAddrRead w reads n replies).reads = reads ++ [(n, some 10)] := by
  cases replies with
  | nil => rfl
  | cons r rest =>
      cases r with
      | timedOut => rfl
      | bs bytes =>
          simp only [socksAddrRead]
          split <;> rfl

theorem socksAddrRead_ne_hangs (w : List Nat) (reads : List (Nat × Option Nat))
    (n : Nat) (replies : List ReadReply) :
    (socksAddrRead w reads n replies).result ≠ SocksResult.hangs := by
  cases replies with
  | nil => simp [socksAddrRead]
  | cons r rest =>
      cases r with
      | timedOut => simp [socksAddrRead]
      | bs bytes =>
          simp only [socksAddrRead]
          split <;> simp

theorem socksAddrRead_timeout_mem (w : List Nat) (reads : List (Nat × Option Nat))
    (n : Nat) (replies : List ReadReply)
    (h : (socksAddrRead w reads n replies).result = SocksResult.timeout) :
    ReadReply.timedOut ∈ replies := by
  cases replies with
  | nil => simp [socksAddrRead] at h
  | cons r rest =>
      cases r with
      | timedOut => exact List.mem_cons_self _ _
      | bs bytes =>
          simp only [socksAddrRead] at h
          split at h <;> simp at h

theorem socksReply_written (w : List Nat) (reads : List (Nat × Option Nat))
    (replies : List ReadReply) :
    (socksReply w reads replies).written = w := by
  cases replies with
  | nil => rfl
  | cons r rest =>
      cases r with
      | timedOut => rfl
      | bs rh =>
          simp only [socksReply]
          repeat' split
          all_goals first
            | rfl
            | exact socksAddrRead_written _ _ _ _

theorem socksReply_reads (w : List Nat) (reads : List (Nat × Option Nat))
    (replies : List ReadReply) :
    ∃ tl : List (Nat × Option Nat),
      (socksReply w reads replies).reads = reads ++ tl ∧ ∀ p ∈ tl, p.2 = some 10 := by
  cases replies with
  | nil => exact ⟨[(4, some 10)], rfl, by simp⟩
  | cons r rest =>
      cases r with
      | timedOut => exact ⟨[(4, some 10)], rfl, by simp⟩
      | bs rh =>
          simp only [socksReply]
          repeat' split
          all_goals try exact ⟨[(4, some 10)], rfl, by simp⟩
          all_goals try exact ⟨[(4, some 10), (1, some 10)], rfl, by simp⟩
          all_goals rw [socksAddrRead_reads, List.append_assoc]
          all_goals exact ⟨_, rfl, by simp⟩

theorem socksReply_ne_hangs (w : List Nat) (reads : List (Nat × Option Nat))
    (replies : List ReadReply) :
    (socksReply w reads replies).result ≠ SocksResult.hangs := by
  cases replies with
  | nil => simp [socksReply]
  | cons r rest =>
      cases r with
      | timedOut => simp [socksReply]
      | bs rh =>
          simp only [socksReply]
          repeat' split
          all_goals first
            | exact socksAddrRead_ne_hangs _ _ _ _
            | simp

theorem socksReply_timeout_mem (w : List Nat) (reads : List (Nat × Option Nat))
    (replies : List ReadReply)
    (h : (socksReply w reads replies).result = SocksResult.timeout) :
    ReadReply.timedOut ∈ replies := by
  cases replies with
  | nil => simp [socksReply] at h
  | cons r rest =>
      cases r with
      | timedOut => exact List.mem_cons_self _ _
      | bs rh =>
          simp only [socksReply] at h
          split at h
          · split at h
            · simp at h
            · split at h
              · exact List.mem_cons_of_mem _ (socksAddrRead_timeout_mem _ _ _ _ h)
              · split at h
                · exact List.mem_cons_of_mem _ (socksAddrRead_timeout_mem _ _ _ _ h)
                · split at h
                  · split at h
                    · simp at h
                    · exact List.mem_cons_of_mem _ (List.mem_cons_self _ _)
                    · split at h
                      · exact List.mem_cons_of_mem _ (List.mem_cons_of_mem _
                          (socksAddrRead_timeout_mem _ _ _ _ h))
                      · simp at h
                  · simp at h
          · simp at h

/-- On a well-formed accepting greeting reply the client writes exactly the
greeting followed by the request bytes, whatever the upstream sends later. -/
theorem forward_written_on_good_greeting (request : Socks5Request)
    (rest : List ReadReply) :
    (forward_to_proxy request (ReadReply.bs [5, 0] :: rest)).written
      = greeting ++ requestBytes request := by
  simp only [forward_to_proxy]
  norm_num [SOCKS_VERSION, NO_AUTHENTICATION]
  exact socksReply_written _ _ _

end Socks

/-- C3: behaviour of the Direct strategy on CONNECT (src/server.rs:81-109) —
on a successful dial the code writes nothing of its own to the client before
the byte-pump: the client receives exactly the target's bytes (so with a
silent target the `HTTP/1.1 200 Connection Established` line is never sent,
not even as a prefix); on a failed dial the 500 line is written and nothing
reaches the target. -/
theorem c3_direct_connect_behavior (clientBytes targetBytes : List Nat) :
    Server.handle_direct_connect true clientBytes targetBytes
        = (targetBytes, clientBytes)
    ∧ Server.handle_direct_connect false clientBytes targetBytes
        = (Server.http500Bytes, [])
    ∧ (Server.handle_direct_connect true clientBytes []).1 = []
    ∧ Server.http200Bytes.isPrefixOf
        (Server.handle_direct_connect true clientBytes []).1 = false :=
  ⟨rfl, rfl, rfl, rfl⟩

namespace Http

theorem splitAll_no_sep (sep : Char) :
    ∀ s : List Char, sep ∉ s → splitAll sep s = [s] := by
  intro s
  induction s with
  | nil => intro _; rfl
  | cons c cs ih =>
      intro h
      have hc : ¬c = sep := by
        intro he
        exact h (by rw [he]; exact List.mem_cons_self _ _)
      have hcs : sep ∉ cs := fun hm => h (List.mem_cons_of_mem _ hm)
      rw [splitAll, if_neg hc, ih hcs]

theorem splitNl_append_line (a r : List Char) (h : '\n' ∉ a) :
    splitNl (a ++ '\n' :: r) = (a ++ ['\n']) :: splitNl r := by
  induction a with
  | nil => simp [splitNl]
  | cons c a' ih =>
      have hc : ¬c = '\n' := fun he => h (by rw [he]; exact List.mem_cons_self _ _)
      have ha' : '\n' ∉ a' := fun hm => h (List.mem_cons_of_mem _ hm)
      rw [List.cons_append, splitNl, if_neg hc, ih ha']
      rfl

theorem splitNl_flatten : ∀ s : List Char, (splitNl s).flatten = s := by
  intro s
  induction s with
  | nil => rfl
  | cons c cs ih =>
      by_cases hc : c = '\n'
      · subst hc
        rw [splitNl, if_pos rfl]
        simp [ih]
      · rw [splitNl, if_neg hc]
        rcases hsp : splitNl cs with _ | ⟨l, ls⟩
        · rw [hsp] at ih
          have hcs : cs = [] := by simpa using ih.symm
          subst hcs
          simp
        · rw [hsp] at ih
          simpa using ih

theorem splitWSGo_token (tok : List Char) :
    ∀ (acc rest : List Char), (∀ c ∈ tok, isWS c = false) →
      splitWSGo acc (tok ++ rest) = splitWSGo (tok.reverse ++ acc) rest := by
  induction tok with
  | nil => intro acc rest _; rfl
  | cons c t ih =>
      intro acc rest h
      have hc : isWS c = false := h c (List.mem_cons_self _ _)
      have ht : ∀ x ∈ t, isWS x = false := fun x hx => h x (List.mem_cons_of_mem _ hx)
      have step : splitWSGo acc ((c :: t) ++ rest) = splitWSGo (c :: acc) (t ++ rest) := by
        simp [splitWSGo, hc]
      rw [step, ih (c :: acc) rest ht]
      simp

theorem splitWSGo_break (c : Char) (acc rest : List Char)
    (hc : isWS c = true) (hacc : acc ≠ []) :
    splitWSGo acc (c :: rest) = acc.reverse :: splitWSGo [] rest := by
  have hE : acc.isEmpty = false := by
    cases acc with
    | nil => exact absurd rfl hacc
    | cons a as => rfl
  simp [splitWSGo, hc, hE]

theorem splitWS_request_line (m t : List Char)
    (hm : m ≠ []) (hmw : ∀ c ∈ m, isWS c = false)
    (ht : t ≠ []) (htw : ∀ c ∈ t, isWS c = false) :
    splitWS (m ++ ' ' :: (t ++ ' ' :: (httpVersion ++ crlf))) = [m, t, httpVersion] := by
  have hrevm : m.reverse ≠ [] := by
    simp only [ne_eq, List.reverse_eq_nil_iff]
    exact hm
  have hrevt : t.reverse ≠ [] := by
    simp only [ne_eq, List.reverse_eq_nil_iff]
    exact ht
  unfold splitWS
  rw [splitWSGo_token m [] (' ' :: (t ++ ' ' :: (httpVersion ++ crlf))) hmw,
      List.append_nil,
      splitWSGo_break ' ' m.reverse (t ++ ' ' :: (httpVersion ++ crlf)) (by decide) hrevm,
      List.reverse_reverse,
      splitWSGo_token t [] (' ' :: (httpVersion ++ crlf)) htw,
      List.append_nil,
      splitWSGo_break ' ' t.reverse (httpVersion ++ crlf) (by decide) hrevt,
      List.reverse_reverse,
      show splitWSGo [] (httpVersion ++ crlf) = [httpVersion] from by decide]

theorem dropWhile_of_head_neg (p : Char → Bool) (c : Char) (t : List Char)
    (h : p c = false) : List.dropWhile p (c :: t) = c :: t := by
  simp [List.dropWhile, h]

theorem dropWhile_of_all_neg (p : Char → Bool) :
    ∀ s : List Char, (∀ c ∈ s, p c = false) → List.dropWhile p s = s := by
  intro s h
  cases s with
  | nil => rfl
  | cons c t => exact dropWhile_of_head_neg p c t (h c (List.mem_cons_self _ _))

theorem dropWhile_all_append (p : Char → Bool) :
    ∀ (xs ys : List Char), (∀ c ∈ xs, p c = true) →
      List.dropWhile p (xs ++ ys) = List.dropWhile p ys := by
  intro xs ys
  induction xs with
  | nil => intro _; rfl
  | cons c t ih =>
      intro h
      rw [List.cons_append, List.dropWhile_cons_of_pos (h c (List.mem_cons_self _ _))]
      exact ih (fun x hx => h x (List.mem_cons_of_mem _ hx))

theorem dropWhile_append_singleton_ne (p : Char → Bool) :
    ∀ (xs : List Char) (c : Char), p c = false →
      List.dropWhile p (xs ++ [c]) ≠ [] := by
  intro xs
  induction xs with
  | nil =>
      intro c hc
      rw [List.nil_append, dropWhile_of_head_neg p c [] hc]
      simp
  | cons x t ih =>
      intro c hc
      rcases hx : p x with _ | _
      · rw [List.cons_append, dropWhile_of_head_neg p x (t ++ [c]) hx]
        simp
      · rw [List.cons_append, List.dropWhile_cons_of_pos hx]
        exact ih c hc

theorem trimRight_append_ws (v w : List Char)
    (hR : trimRight v = v) (hw : ∀ c ∈ w, isWS c = true) :
    trimRight (v ++ w) = v := by
  unfold trimRight at hR ⊢
  rw [List.reverse_append, dropWhile_all_append isWS w.reverse v.reverse
        (fun c hc => hw c (List.mem_reverse.mp hc))]
  exact hR

theorem trimRight_of_all_neg (s : List Char) (h : ∀ c ∈ s, isWS c = false) :
    trimRight s = s := by
  unfold trimRight
  rw [dropWhile_of_all_neg isWS s.reverse (fun c hc => h c (List.mem_reverse.mp hc)),
      List.reverse_reverse]

theorem trim_of_all_neg (s : List Char) (h : ∀ c ∈ s, isWS c = false) :
    trim s = s := by
  unfold trim
  rw [dropWhile_of_all_neg isWS s h]
  exact trimRight_of_all_neg s h

theorem trim_header_value (v : List Char)
    (hL : v.dropWhile isWS = v) (hR : trimRight v = v) :
    trim (' ' :: (v ++ crlf)) = v := by
  unfold trim
  rw [List.dropWhile_cons_of_pos (by decide : isWS ' ' = true)]
  cases v with
  | nil => decide
  | cons c v' =>
      have hc : isWS c = false := by
        by_contra hcc
        have hcc' : isWS c = true := by simpa using hcc
        rw [List.dropWhile_cons_of_pos hcc'] at hL
        have hle := (List.dropWhile_suffix (l := v') isWS).length_le
        have hlen := congrArg List.length hL
        simp only [List.length_cons] at hlen
        omega
      rw [List.cons_append, dropWhile_of_head_neg isWS c (v' ++ crlf) hc,
          ← List.cons_append]
      exact trimRight_append_ws (c :: v') crlf hR (by decide)

theorem trim_cons_ne_nil (c : Char) (t : List Char) (hc : isWS c = false) :
    trim (c :: t) ≠ [] := by
  unfold trim
  rw [dropWhile_of_head_neg isWS c t hc]
  unfold trimRight
  intro h0
  have h1 : List.dropWhile isWS ((c :: t).reverse) = [] := by
    have h2 := congrArg List.reverse h0
    simpa using h2
  rw [List.reverse_cons] at h1
  exact dropWhile_append_singleton_ne isWS t.reverse c hc h1

theorem splitOnceColon_append (k : List Char) :
    ∀ rest : List Char, ':' ∉ k →
      splitOnceColon (k ++ ':' :: rest) = some (k, rest) := by
  induction k with
  | nil => intro rest _; simp [splitOnceColon]
  | cons c k' ih =>
      intro rest h
      have hc : ¬c = ':' := fun he => h (by rw [he]; exact List.mem_cons_self _ _)
      have h' : ':' ∉ k' := fun hm => h (List.mem_cons_of_mem _ hm)
      rw [List.cons_append, splitOnceColon, if_neg hc, ih rest h']

theorem insertHeader_append (acc : List (List Char × List Char)) (k v : List Char)
    (h : ∀ p ∈ acc, p.1 ≠ k) :
    insertHeader acc k v = acc ++ [(k, v)] := by
  induction acc with
  | nil => rfl
  | cons q acc' ih =>
      rw [insertHeader, if_neg (h q (List.mem_cons_self _ _)),
          ih (fun p hp => h p (List.mem_cons_of_mem _ hp)), List.cons_append]

theorem map_toLower_fixed :
    ∀ k : List Char, (∀ c ∈ k, Char.toLower c = c) → k.map Char.toLower = k := by
  intro k
  induction k with
  | nil => intro _; rfl
  | cons c t ih =>
      intro h
      rw [List.map_cons, h c (List.mem_cons_self _ _),
          ih (fun x hx => h x (List.mem_cons_of_mem _ hx))]

theorem splitNl_headerLines (hs : List (List Char × List Char)) :
    ∀ rest : List Char,
      (∀ p ∈ hs, HeaderNameOk p.1 ∧ HeaderValueOk p.2) →
      splitNl (hs.flatMap headerLine ++ rest) = hs.map headerLine ++ splitNl rest := by
  induction hs with
  | nil => intro rest _; simp
  | cons p hs' ih =>
      intro rest h
      obtain ⟨⟨hk1, hk2⟩, hv1, hv2, hv3⟩ := h p (List.mem_cons_self _ _)
      have hline : ('\n' : Char) ∉ (p.1 ++ ':' :: ' ' :: (p.2 ++ ['\r'])) := by
        intro hmem
        rcases List.mem_append.mp hmem with h0 | h0
        · exact absurd (hk2 _ h0).1 (by decide)
        rcases List.mem_cons.mp h0 with h0 | h0
        · exact absurd h0 (by decide)
        rcases List.mem_cons.mp h0 with h0 | h0
        · exact absurd h0 (by decide)
        rcases List.mem_append.mp h0 with h0 | h0
        · exact hv3 h0
        · exact absurd h0 (by decide)
      rw [List.flatMap_cons, List.map_cons, List.append_assoc,
          show headerLine p ++ (hs'.flatMap headerLine ++ rest)
            = (p.1 ++ ':' :: ' ' :: (p.2 ++ ['\r']))
                ++ '\n' :: (hs'.flatMap headerLine ++ rest) from by
            simp [headerLine, crlf],
          splitNl_append_line _ _ hline,
          ih rest (fun q hq => h q (List.mem_cons_of_mem _ hq))]
      simp [headerLine, crlf]

theorem readHeadersLines_canonical (hs : List (List Char × List Char)) :
    ∀ (acc : List (List Char × List Char)) (cl : Nat) (tailLines : List (List Char)),
      (∀ p ∈ hs, HeaderNameOk p.1 ∧ HeaderValueOk p.2) →
      (hs.map Prod.fst).Nodup →
      (∀ q ∈ acc, ∀ p ∈ hs, q.1 ≠ p.1) →
      readHeadersLines (hs.map headerLine ++ crlf :: tailLines) acc cl
        = (acc ++ hs, declaredCL cl hs, tailLines) := by
  induction hs with
  | nil =>
      intro acc cl tailLines _ _ _
      rw [List.map_nil, List.nil_append, readHeadersLines, if_pos (by decide)]
      simp [declaredCL]
  | cons p hs' ih =>
      intro acc cl tailLines h hnd hdisj
      obtain ⟨⟨hk1, hk2⟩, hv1, hv2, hv3⟩ := h p (List.mem_cons_self _ _)
      rw [List.map_cons] at hnd
      obtain ⟨hndh, hndt⟩ := List.nodup_cons.mp hnd
      rcases hpk : p.1 with _ | ⟨c0, k0⟩
      · exact absurd hpk hk1
      have hc0 : isWS c0 = false := by
        have hm0 := hk2 c0 (by rw [hpk]; exact List.mem_cons_self _ _)
        exact hm0.1
      have hline_eq : headerLine p = c0 :: (k0 ++ ':' :: ' ' :: (p.2 ++ crlf)) := by
        rw [headerLine, hpk, List.cons_append]
      have htr : trim (headerLine p) ≠ [] := by
        rw [hline_eq]
        exact trim_cons_ne_nil _ _ hc0
      have htr' : ¬(trim (headerLine p)).isEmpty = true := by
        intro hEt
        exact htr (List.isEmpty_iff.mp hEt)
      have hnc : ':' ∉ p.1 := fun hm => (hk2 _ hm).2.1 rfl
      have hsc : splitOnceColon (headerLine p) = some (p.1, ' ' :: (p.2 ++ crlf)) := by
        rw [headerLine]
        exact splitOnceColon_append p.1 (' ' :: (p.2 ++ crlf)) hnc
      have hkeq : (trim p.1).map Char.toLower = p.1 := by
        rw [trim_of_all_neg p.1 (fun c hc => (hk2 c hc).1)]
        exact map_toLower_fixed p.1 (fun c hc => (hk2 c hc).2.2)
      have hveq : trim (' ' :: (p.2 ++ crlf)) = p.2 := trim_header_value p.2 hv1 hv2
      have hacc : insertHeader acc p.1 p.2 = acc ++ [(p.1, p.2)] :=
        insertHeader_append acc p.1 p.2
          (fun q hq => hdisj q hq p (List.mem_cons_self _ _))
      have hdisj' : ∀ q ∈ acc ++ [(p.1, p.2)], ∀ s ∈ hs', q.1 ≠ s.1 := by
        intro q hq s hss
        rcases List.mem_append.mp hq with hq1 | hq2
        · exact hdisj q hq1 s (List.mem_cons_of_mem _ hss)
        · have hq3 : q = (p.1, p.2) := by simpa using hq2
          rw [hq3]
          intro hcontra
          refine hndh ?_
          rw [hcontra]
          exact List.mem_map_of_mem Prod.fst hss
      rw [List.map_cons, List.cons_append, readHeadersLines, if_neg htr', hsc]
      simp only [hkeq, hveq, hacc]
      rw [ih (acc ++ [(p.1, p.2)]) _ tailLines
            (fun q hq => h q (List.mem_cons_of_mem _ hq)) hndt hdisj']
      rw [declaredCL]
      simp

end Http

/-- C7 counterexample: the head `GET / HTTP/1.1\r\nhost:x\r\n\r\n` (26 bytes,
with no space after the header colon) parses successfully consuming all 26
bytes, but re-serializing the parsed head — method, target, headers and body —
yields 27 bytes, because the separator is normalized to `: `; the lengths
differ in more than header-name casing. -/
theorem c7_counterexample :
    Http.parse_request c7Input = .ok (c7Request, [])
    ∧ c7Input.length = 26
    ∧ (Http.serialize_request c7Request).length = 27 :=
  ⟨rfl, rfl, rfl⟩

/-- C7 amended: for every request head already in canonical serialized form —
single-space request line with version HTTP/1.1, every header written
`name: value` with a lowercase whitespace-free colon-free nonempty name and a
trimmed newline-free value, pairwise distinct names, and a declared content
length that equals the body length — parsing the serialized bytes consumes
exactly those bytes and returns the head itself, so re-serialization
reproduces the consumed head bytes verbatim and in particular preserves their
byte length. -/
theorem c7_roundtrip (r : Http.HttpRequest) (extra : List Char)
    (hcan : Http.CanonicalHead r) :
    Http.parse_request (Http.serialize_request r ++ extra) = .ok (r, extra) := by
  obtain ⟨m, t, hs, body⟩ := r
  obtain ⟨⟨hm1, hm2⟩, ⟨ht1, ht2⟩, hh, hnd, hcl⟩ := hcan
  simp only at hm1 hm2 ht1 ht2 hh hnd hcl
  have hnl1 : ('\n' : Char) ∉ (m ++ ' ' :: (t ++ ' ' :: (Http.httpVersion ++ ['\r']))) := by
    intro hmem
    rcases List.mem_append.mp hmem with h0 | h0
    · exact absurd (hm2 _ h0) (by decide)
    rcases List.mem_cons.mp h0 with h0 | h0
    · exact absurd h0 (by decide)
    rcases List.mem_append.mp h0 with h0 | h0
    · exact absurd (ht2 _ h0) (by decide)
    rcases List.mem_cons.mp h0 with h0 | h0
    · exact absurd h0 (by decide)
    rcases List.mem_append.mp h0 with h0 | h0
    · exact absurd h0 (by decide)
    · exact absurd h0 (by decide)
  have heq : Http.serialize_request ⟨m, t, hs, body⟩ ++ extra
      = (m ++ ' ' :: (t ++ ' ' :: (Http.httpVersion ++ ['\r'])))
          ++ '\n' :: (hs.flatMap Http.headerLine ++ '\r' :: '\n' :: (body ++ extra)) := by
    simp [Http.serialize_request, Http.crlf]
  have hsplit : Http.splitNl (Http.serialize_request ⟨m, t, hs, body⟩ ++ extra)
      = (m ++ ' ' :: (t ++ ' ' :: (Http.httpVersion ++ Http.crlf)))
          :: (hs.map Http.headerLine ++ Http.crlf :: Http.splitNl (body ++ extra)) := by
    rw [heq, Http.splitNl_append_line _ _ hnl1,
        Http.splitNl_headerLines hs ('\r' :: '\n' :: (body ++ extra)) hh,
        show ('\r' :: '\n' :: (body ++ extra) : List Char)
          = ['\r'] ++ '\n' :: (body ++ extra) from rfl,
        Http.splitNl_append_line ['\r'] (body ++ extra) (by decide)]
    simp [Http.crlf]
  have hws : Http.splitWS (m ++ ' ' :: (t ++ ' ' :: (Http.httpVersion ++ Http.crlf)))
      = [m, t, Http.httpVersion] :=
    Http.splitWS_request_line m t hm1 hm2 ht1 ht2
  have hread := Http.readHeadersLines_canonical hs [] 0
      (Http.splitNl (body ++ extra)) hh hnd
      (fun q hq => absurd hq (List.not_mem_nil q))
  simp only [Http.parse_request, hsplit, hws, hread, List.nil_append,
    Http.splitNl_flatten, hcl, List.length_cons, List.length_nil,
    List.getD_cons_zero, List.getD_cons_succ]
  by_cases hb : 0 < body.length
  · have hle : body.length ≤ (body ++ extra).length := by
      rw [List.length_append]
      omega
    rw [if_pos hb, if_pos hle, if_pos trivial, List.take_left, List.drop_left]
  · rw [if_neg hb]
    have hb0 : body = [] := by
      cases hE : body with
      | nil => rfl
      | cons x xs =>
          rw [hE] at hb
          simp at hb
    rw [hb0]
    simp

/-- Witness for C7 amended: a canonical POST head with two headers and a
3-byte body round-trips through the parser. -/
theorem c7_roundtrip_witness :
    Http.parse_request (Http.serialize_request c7Canonical) = .ok (c7Canonical, []) := by
  have h := c7_roundtrip c7Canonical [] (by
    simp only [Http.CanonicalHead, Http.TokenOk, Http.HeaderNameOk, Http.HeaderValueOk]
    decide)
  simpa using h

/-- C4 counterexample: a GET for `https://example.com/` carrying the Host
header `example.com` with no explicit port extracts port 80, not 443 as the
claim requires for an https target. -/
theorem c4_counterexample :
    Server.extract_host_and_port c4Request = .ok ("example.com".data, 80) := by
  rfl

/-- C4 amended: for every successfully parsed non-CONNECT head whose derived
host string carries no explicit port, target extraction returns port 80
regardless of the request target's scheme — 443 is never produced on that
path. -/
theorem c4_default_port (request : Http.HttpRequest) (host : List Char)
    (hm : ¬request.method = Http.connectStr)
    (hd : Server.derivedHost request = some host)
    (hc : ':' ∉ host) :
    Server.extract_host_and_port request = .ok (host, 80) := by
  unfold Server.extract_host_and_port
  rw [if_neg hm, hd]
  simp [Http.splitAll_no_sep ':' host hc]

/-- Witness for C4 amended, at the https request of the counterexample. -/
theorem c4_default_port_witness :
    Server.extract_host_and_port c4Request = .ok ("example.com".data, 80) :=
  c4_default_port c4Request ("example.com".data) (by decide) (by rfl) (by decide)

/-- C5: for a target host of at most 255 bytes, the SOCKS5 client writes
exactly the greeting `05 01 00`; when the 2-byte greeting reply is `05 00` it
then writes exactly `05 01 00 03`, one length byte equal to the host's byte
length, the host bytes, and the port as big-endian u16 — and nothing more,
whatever the upstream replies afterwards; any other 2-byte greeting reply
fails with the authentication-rejected error after only the greeting was
written. -/
theorem c5_socks_request_bytes (request : Socks.Socks5Request)
    (hlen : request.target.length ≤ 255) :
    (∀ rest : List Socks.ReadReply,
      (Socks.forward_to_proxy request (Socks.ReadReply.bs [5, 0] :: rest)).written
        = [5, 1, 0] ++ ([5, 1, 0, 3] ++ [request.target.length]
            ++ request.target ++ [request.port / 256 % 256, request.port % 256]))
    ∧ (∀ a b : Nat, ∀ rest : List Socks.ReadReply, ¬(a = 5 ∧ b = 0) →
        (Socks.forward_to_proxy request (Socks.ReadReply.bs [a, b] :: rest)).result
            = Socks.SocksResult.authRejected
          ∧ (Socks.forward_to_proxy request (Socks.ReadReply.bs [a, b] :: rest)).written
            = [5, 1, 0]) := by
  have hmod : request.target.length % 256 = request.target.length :=
    Nat.mod_eq_of_lt (Nat.lt_succ_of_le hlen)
  constructor
  · intro rest
    rw [Socks.forward_written_on_good_greeting]
    simp [Socks.greeting, Socks.requestBytes, Socks.SOCKS_VERSION,
          Socks.NO_AUTHENTICATION, Socks.CONNECT_COMMAND, Socks.DOMAIN_TYPE, hmod]
  · intro a b rest hab
    have hor : a ≠ 5 ∨ b ≠ 0 := by tauto
    constructor <;>
      · simp only [Socks.forward_to_proxy, Socks.SOCKS_VERSION,
          Socks.NO_AUTHENTICATION, Socks.greeting]
        norm_num
        simp [hor]

/-- Witness for C5 at the 12-byte host of spec scenario 3 and port 443. -/
theorem c5_socks_request_bytes_witness :
    (Socks.forward_to_proxy c5Request [Socks.ReadReply.bs [5, 0]]).written
      = [5, 1, 0] ++ ([5, 1, 0, 3] ++ [12] ++ c5Request.target ++ [1, 187]) := by
  rw [(c5_socks_request_bytes c5Request (by decide)).1 []]
  decide

/-- C6 counterexample: the 2-byte greeting-reply read is recorded with no
timeout bound, and when the upstream never answers it the client hangs instead
of failing with a Timeout error. -/
theorem c6_counterexample :
    (Socks.forward_to_proxy c5Request [Socks.ReadReply.timedOut]).reads = [(2, none)]
    ∧ (Socks.forward_to_proxy c5Request [Socks.ReadReply.timedOut]).result
        = Socks.SocksResult.hangs
    ∧ (Socks.forward_to_proxy c5Request [Socks.ReadReply.timedOut]).result
        ≠ Socks.SocksResult.timeout :=
  ⟨rfl, rfl, by decide⟩

/-- C6 amended: every read after the greeting reply — the 4-byte reply head
and all bound-address reads — is bounded by a 10-second timeout and failing
that bound yields the Timeout outcome, but the 2-byte greeting-reply read
carries no bound: it is the only read that can hang, and a Timeout outcome can
only originate from a read after it. -/
theorem c6_socks_read_timeouts (request : Socks.Socks5Request)
    (replies : List Socks.ReadReply) :
    (∃ tl : List (Nat × Option Nat),
        (Socks.forward_to_proxy request replies).reads = (2, none) :: tl
          ∧ ∀ p ∈ tl, p.2 = some 10)
    ∧ ((Socks.forward_to_proxy request replies).result = Socks.SocksResult.hangs ↔
        replies.head? = some Socks.ReadReply.timedOut)
    ∧ ((Socks.forward_to_proxy request replies).result = Socks.SocksResult.timeout →
        Socks.ReadReply.timedOut ∈ replies.tail) := by
  cases replies with
  | nil =>
      refine ⟨⟨[], rfl, by simp⟩, by simp [Socks.forward_to_proxy], ?_⟩
      intro h
      simp [Socks.forward_to_proxy] at h
  | cons r rest =>
      cases r with
      | timedOut =>
          refine ⟨⟨[], rfl, by simp⟩, by simp [Socks.forward_to_proxy], ?_⟩
          intro h
          simp [Socks.forward_to_proxy] at h
      | bs resp =>
          simp only [Socks.forward_to_proxy]
          split
          · split
            · refine ⟨⟨[], rfl, by simp⟩, by simp, ?_⟩
              intro h
              simp at h
            · refine ⟨?_, ?_, ?_⟩
              · obtain ⟨tl, htl, hall⟩ := Socks.socksReply_reads
                  (Socks.greeting ++ Socks.requestBytes request) [(2, none)] rest
                exact ⟨tl, htl, hall⟩
              · constructor
                · intro h
                  exact absurd h (Socks.socksReply_ne_hangs _ _ _)
                · intro h
                  simp at h
              · intro h
                exact Socks.socksReply_timeout_mem _ _ _ h
          · refine ⟨⟨[], rfl, by simp⟩, by simp, ?_⟩
            intro h
            simp at h

/-- Witness for C6 amended: a run whose reply-head read exceeds its bound
produces the Timeout outcome, and membership places the exceeded read after
the greeting. -/
theorem c6_socks_read_timeouts_witness :
    Socks.ReadReply.timedOut
      ∈ ([Socks.ReadReply.bs [5, 0], Socks.ReadReply.timedOut] :
          List Socks.ReadReply).tail :=
  (c6_socks_read_timeouts c10Request
      [Socks.ReadReply.bs [5, 0], Socks.ReadReply.timedOut]).2.2 (by decide)

/-- C8: when parsing the changed config file fails, one watcher reload cycle
leaves the whole observable state unchanged — the policy cell still holds the
previous policy and the current epoch token is neither cancelled nor replaced
— whatever the token-lock and write-wait outcomes are.  Cancellation and
replacement occur only in the successful-parse branch. -/
theorem c8_parse_failure_keeps_policy (st : Watcher.WatcherState) (msg : String)
    (lockOk firstWriteOk secondWriteOk : Bool) :
    Watcher.reload_cycle st (.error msg) lockOk firstWriteOk secondWriteOk = st
    ∧ (Watcher.reload_cycle st (.error msg) lockOk firstWriteOk secondWriteOk).config
        = st.config
    ∧ (Watcher.reload_cycle st (.error msg) lockOk firstWriteOk
          secondWriteOk).cancelledEpochs = st.cancelledEpochs
    ∧ (Watcher.reload_cycle st (.error msg) lockOk firstWriteOk
          secondWriteOk).tokenEpoch = st.tokenEpoch :=
  ⟨rfl, rfl, rfl, rfl⟩

/-- C9 counterexample: a pump whose epoch token is cancelled right after the
handler's entry check still forwards every byte of both streams to EOF — the
copy loops are not abandoned on cancellation. -/
theorem c9_counterexample :
    Server.handle_client_pump ⟨false, true⟩ [1, 2, 3] [7, 8]
      = Server.HandlerOutcome.pumped [7, 8] [1, 2, 3] := rfl

/-- C9 amended: the handler reads the epoch token exactly once, before parsing
the request; its outcome is independent of any cancellation during the pump —
if the token was already cancelled at entry the handler returns without
forwarding, and otherwise the copy loops run to EOF regardless of later
cancellation. -/
theorem c9_pump_ignores_cancellation (tok : Server.TokenHistory)
    (clientBytes upstreamBytes : List Nat) :
    Server.handle_client_pump tok clientBytes upstreamBytes
        = Server.handle_client_pump
            { cancelledAtEntry := tok.cancelledAtEntry, cancelledDuringPump := false }
            clientBytes upstreamBytes
    ∧ (tok.cancelledAtEntry = true →
        Server.handle_client_pump tok clientBytes upstreamBytes
          = Server.HandlerOutcome.earlyReturn)
    ∧ (tok.cancelledAtEntry = false →
        Server.handle_client_pump tok clientBytes upstreamBytes
          = Server.HandlerOutcome.pumped upstreamBytes clientBytes) := by
  refine ⟨rfl, fun he => ?_, fun he => ?_⟩ <;>
    simp [Server.handle_client_pump, he]

/-- Witness for C9 amended: with the token uncancelled at entry and cancelled
during the pump, the handler still forwards both streams in full. -/
theorem c9_pump_ignores_cancellation_witness :
    Server.handle_client_pump ⟨false, true⟩ [9] [4, 4]
      = Server.HandlerOutcome.pumped [4, 4] [9] :=
  (c9_pump_ignores_cancellation ⟨false, true⟩ [9] [4, 4]).2.2 rfl

/-- C10: the SOCKS5 domain-length byte is `target.len() as u8`; for a host
longer than 255 bytes the byte written is the length modulo 256 — which is no
longer the length — while all host bytes are still written, so the client
emits a malformed SOCKS5 request instead of failing. -/
theorem c10_socks_length_truncation (request : Socks.Socks5Request)
    (rest : List Socks.ReadReply) (hlen : 255 < request.target.length) :
    (Socks.forward_to_proxy request (Socks.ReadReply.bs [5, 0] :: rest)).written
        = [5, 1, 0] ++ ([5, 1, 0, 3] ++ [request.target.length % 256]
            ++ request.target ++ [request.port / 256 % 256, request.port % 256])
    ∧ request.target.length % 256 ≠ request.target.length := by
  constructor
  · rw [Socks.forward_written_on_good_greeting]
    simp [Socks.greeting, Socks.requestBytes, Socks.SOCKS_VERSION,
          Socks.NO_AUTHENTICATION, Socks.CONNECT_COMMAND, Socks.DOMAIN_TYPE]
  · have h1 : request.target.length % 256 < 256 := Nat.mod_lt _ (by norm_num)
    omega

set_option maxRecDepth 8000 in
/-- Witness for C10 at a 260-byte host: the length byte sent is 4. -/
theorem c10_socks_length_truncation_witness :
    (Socks.forward_to_proxy c10Request [Socks.ReadReply.bs [5, 0]]).written
      = [5, 1, 0] ++ ([5, 1, 0, 3] ++ [4] ++ c10Request.target ++ [0, 80]) := by
  rw [(c10_socks_length_truncation c10Request [] (by decide)).1]
  decide

end ProxyTwister
